import Mathlib

/-!
Shallow embedding of `src/c++ 4/c++ 4.cpp`: the `LabThreadSafeData` record
store (per-field reader-writer locks, per-field and global atomic counters),
the operation executor `executeFile`, and the workload generator
`generateFile`.

Sequential state is modelled explicitly: each member function of
`LabThreadSafeData` becomes a function from the store state (and arguments)
to the new store state (and result).  The `size_t` counters are modelled as
`Nat` (they only ever increase by one per operation), the `int` field values
as `Int`.  Locking has no effect on the sequential semantics; for the
deadlock claim the lock acquisition/release behaviour of each member
function is modelled separately as a trace of lock events.
-/

/-- State of a `LabThreadSafeData` object: the `fields` vector, the
per-field `read_count` and `write_count` atomic counters, and the global
`string_count` and `total_ops` atomic counters (the `field_mutexes` carry
no sequential state). -/
structure LabThreadSafeData where
  fields : List Int
  read_count : List Nat
  write_count : List Nat
  string_count : Nat
  total_ops : Nat
deriving DecidableEq

/-- Constructor `LabThreadSafeData(size_t m)`: `m` fields initialized to 0,
all counters zero-initialized. -/
def LabThreadSafeData.ofSize (m : Nat) : LabThreadSafeData :=
  { fields := List.replicate m 0
    read_count := List.replicate m 0
    write_count := List.replicate m 0
    string_count := 0
    total_ops := 0 }

/-- `int readField(size_t index)`: increments `read_count[index]` and
`total_ops`, returns `fields[index]`. -/
def readField (s : LabThreadSafeData) (index : Nat) : Int × LabThreadSafeData :=
  (s.fields.getD index 0,
   { s with
      read_count := s.read_count.set index (s.read_count.getD index 0 + 1)
      total_ops := s.total_ops + 1 })

/-- `void writeField(size_t index, int value)`: increments
`write_count[index]` and `total_ops`, stores `value` into `fields[index]`. -/
def writeField (s : LabThreadSafeData) (index : Nat) (value : Int) : LabThreadSafeData :=
  { s with
      fields := s.fields.set index value
      write_count := s.write_count.set index (s.write_count.getD index 0 + 1)
      total_ops := s.total_ops + 1 }

/-- The string produced by `operator std::string()`: the loop appends
`fields[i]` for each `i < fields.size()` followed by `", "` whenever
`i != fields.size() - 1`. -/
def snapshotStr (fields : List Int) : String :=
  String.join ((List.range fields.length).map fun i =>
    toString (fields.getD i 0) ++ if i ≠ fields.length - 1 then ", " else "")

/-- `operator std::string()`: renders the fields, increments `string_count`
and `total_ops`. -/
def toStdString (s : LabThreadSafeData) : String × LabThreadSafeData :=
  (snapshotStr s.fields,
   { s with
      string_count := s.string_count + 1
      total_ops := s.total_ops + 1 })

/-- An operation against the store, as dispatched by `executeFile`:
`read <i>`, `write <i> <v>`, or `string`. -/
inductive Op where
  | read (i : Nat)
  | write (i : Nat) (v : Int)
  | string
deriving DecidableEq

/-- Apply one operation to the store (the executor discards results). -/
def applyOp (s : LabThreadSafeData) : Op → LabThreadSafeData
  | .read i => (readField s i).2
  | .write i v => writeField s i v
  | .string => (toStdString s).2

/-- Apply a sequence of operations in order. -/
def applyOps (s : LabThreadSafeData) (ops : List Op) : LabThreadSafeData :=
  ops.foldl applyOp s

/-- An operation is valid for an `N`-field store when its field index is in
range (out-of-range indexing of the `std::vector`s is undefined behaviour
in the source, see spec section 7). -/
def validOp (N : Nat) : Op → Bool
  | .read i => decide (i < N)
  | .write i _ => decide (i < N)
  | .string => true

/-- Sum of all per-field read counters, all per-field write counters, and
the string counter. -/
def countersSum (s : LabThreadSafeData) : Nat :=
  s.read_count.sum + s.write_count.sum + s.string_count

/-- Structural invariant tying the counters to `total_ops`, together with
the counter-vector lengths needed to maintain it. -/
def CounterInv (N : Nat) (s : LabThreadSafeData) : Prop :=
  s.read_count.length = N ∧ s.write_count.length = N ∧ countersSum s = s.total_ops

/-- Predicate used for C2: does the operation write to field `i`? -/
def writesTo (i : Nat) : Op → Bool
  | .write j _ => decide (j = i)
  | _ => false

/-- Rendering of the fields in the words of the spec: a comma-separated
list of the field values in index order.  Stated separately from
`snapshotStr` (which is translated from the source loop) so that the two
can be proved equal. -/
def commaSeparatedList : List Int → String
  | [] => ""
  | [x] => toString x
  | x :: y :: t => toString x ++ ", " ++ commaSeparatedList (y :: t)

/-- The divisor used by `printStats`: `size_t ops = total_ops.load(); if
(ops == 0) ops = 1;`. -/
def statsDivisor (s : LabThreadSafeData) : Nat :=
  if s.total_ops = 0 then 1 else s.total_ops

/-- The numbers printed by `printStats`: for each field the pair
`(100.0 * read_count[i] / ops, 100.0 * write_count[i] / ops)`, and the
string-request percentage `100.0 * string_count / ops`.  The `double`
arithmetic is modelled exactly over `ℚ`. -/
def printStats (s : LabThreadSafeData) : List (ℚ × ℚ) × ℚ :=
  ((List.range s.fields.length).map fun i =>
      (100 * (s.read_count.getD i 0 : ℚ) / (statsDivisor s : ℚ),
       100 * (s.write_count.getD i 0 : ℚ) / (statsDivisor s : ℚ)),
   100 * (s.string_count : ℚ) / (statsDivisor s : ℚ))

/-- The six whitespace characters recognized by `std::isspace` in the
default locale, which `operator>>` skips and stops at. -/
def isCppSpace (c : Char) : Bool :=
  c == ' ' || c == '\t' || c == '\n' || c == '\r' || c == '\x0B' || c == '\x0C'

/-- State of a `std::istringstream` over one line: the remaining
characters, the fail bit and the eof bit.  The eof bit is set by an
extraction that runs into the end of the stream (also a successful one,
such as reading the final digits of the line); a later extraction then
fails at its sentry without touching its target. -/
structure IStrStream where
  chars : List Char
  failed : Bool
  eof : Bool
deriving DecidableEq

/-- A fresh `std::istringstream iss(line)`: all state bits clear. -/
def issOf (line : String) : IStrStream := ⟨line.data, false, false⟩

/-- `iss >> cmd` for `std::string cmd`: a formatted input function.  If
the stream is not good (fail or eof bit set), the sentry fails, the fail
bit is set and the target is left unmodified (in `executeFile` the target
is the freshly default-constructed empty `cmd`, so `""` is returned).  If
skipping whitespace exhausts the stream, the sentry sets the eof and fail
bits, again storing nothing.  Otherwise the next whitespace-delimited
token is extracted; the eof bit is set when the token runs to the end of
the stream. -/
def extractString (st : IStrStream) : String × IStrStream :=
  if st.failed || st.eof then ("", { st with failed := true })
  else
    let rest := st.chars.dropWhile isCppSpace
    if rest.isEmpty then ("", ⟨[], true, true⟩)
    else
      let tok := rest.takeWhile fun c => !isCppSpace c
      (String.mk tok, ⟨rest.drop tok.length, false, (rest.drop tok.length).isEmpty⟩)

/-- `iss >> n` for `int n`: a formatted input function.  If the stream is
not good (fail or eof bit set), or skipping whitespace exhausts the
stream, the sentry fails and the extraction returns without attempting to
obtain input: the target keeps its previous value — indeterminate for the
uninitialized locals of `executeFile`, hence `none`.  Only when the sentry
succeeds does `num_get` run: it parses an optional sign followed by
decimal digits; on success it stores the value (setting the eof bit when
the digits run to the end of the stream), and when no digits are found it
stores `0` (C++11) and sets the fail bit. -/
def extractInt (st : IStrStream) : Option Int × IStrStream :=
  if st.failed || st.eof then (none, { st with failed := true })
  else
    let rest := st.chars.dropWhile isCppSpace
    if rest.isEmpty then (none, ⟨[], true, true⟩)
    else
      let sgn : Bool := match rest with
        | '-' :: _ => true
        | _ => false
      let rest2 : List Char := match rest with
        | '-' :: cs => cs
        | '+' :: cs => cs
        | cs => cs
      let ds := rest2.takeWhile Char.isDigit
      if ds.isEmpty then (some 0, ⟨rest, true, rest2.isEmpty⟩)
      else
        (some (if sgn then -(ds.foldl (fun a c => a * 10 + (c.toNat - '0'.toNat)) 0 : Nat)
               else ((ds.foldl (fun a c => a * 10 + (c.toNat - '0'.toNat)) 0 : Nat) : Int)),
         ⟨rest2.drop ds.length, false, (rest2.drop ds.length).isEmpty⟩)

/-- One iteration of the `while (std::getline(fin, line))` loop body of
`executeFile`: extract the command token and dispatch.  The source declares
`int idx, val;` without initializers and does not check extraction success,
so an extraction whose sentry fails (fail or eof bit already set, or
whitespace skipping exhausts the stream) stores nothing and leaves the
variable indeterminate: this is the `junk` parameter.  A negative `idx`
passed to the `size_t` parameter, like any out-of-range index, is undefined
behaviour in the source; the model clamps with `Int.toNat`. -/
def execLine (junk : Int) (line : String) (s : LabThreadSafeData) : LabThreadSafeData :=
  if (extractString (issOf line)).1 = "write" then
    writeField s
      (((extractInt (extractString (issOf line)).2).1.getD junk).toNat)
      ((extractInt (extractInt (extractString (issOf line)).2).2).1.getD junk)
  else if (extractString (issOf line)).1 = "read" then
    (readField s (((extractInt (extractString (issOf line)).2).1.getD junk).toNat)).2
  else if (extractString (issOf line)).1 = "string" then
    (toStdString s).2
  else s

/-- `executeFile`: replay every line of the file against the store (the
file is modelled as its list of lines, as produced by `std::getline`). -/
def executeFile (junk : Int) (lines : List String) (s : LabThreadSafeData) :
    LabThreadSafeData :=
  lines.foldl (fun acc line => execLine junk line acc) s

/-- `struct OpsPercent`: seven `double` percentages, modelled as exact
rationals. -/
structure OpsPercent where
  read1 : ℚ
  write1 : ℚ
  read2 : ℚ
  write2 : ℚ
  read3 : ℚ
  write3 : ℚ
  string_op : ℚ

/-- `static_cast<int>(num_ops * p / 100.0)`: truncation toward zero of the
exact value `num_ops * p / 100`.  For `p = p.num / p.den` this value is
`(num_ops * p.num) / (100 * p.den)`, and truncating division toward zero
on integers is `Int.tdiv`. -/
def pctCount (num_ops : Int) (p : ℚ) : Int :=
  Int.tdiv (num_ops * p.num) (100 * (p.den : Int))

/-- The seven per-kind counts `num_read1 .. num_string` of `generateFile`. -/
def pctCounts (num_ops : Int) (percents : OpsPercent) : List Int :=
  [pctCount num_ops percents.read1, pctCount num_ops percents.write1,
   pctCount num_ops percents.read2, pctCount num_ops percents.write2,
   pctCount num_ops percents.read3, pctCount num_ops percents.write3,
   pctCount num_ops percents.string_op]

/-- The `ops` vector of `generateFile` after the seven push-back loops
(a loop `for (int i = 0; i < n; ++i)` runs `n.toNat` times). -/
def generatedBaseOps (num_ops : Int) (percents : OpsPercent) : List String :=
  List.replicate (pctCount num_ops percents.read1).toNat "read 0" ++
  List.replicate (pctCount num_ops percents.write1).toNat "write 0 1" ++
  List.replicate (pctCount num_ops percents.read2).toNat "read 1" ++
  List.replicate (pctCount num_ops percents.write2).toNat "write 1 1" ++
  List.replicate (pctCount num_ops percents.read3).toNat "read 2" ++
  List.replicate (pctCount num_ops percents.write3).toNat "write 2 1" ++
  List.replicate (pctCount num_ops percents.string_op).toNat "string"

/-- `generateFile`: the base ops plus the padding loop
`while ((int)ops.size() < num_ops) ops.push_back("string");`.  The
`std::shuffle` permutes the vector and the file holds one entry per line,
so the line sequence has exactly this length and multiset of entries; the
shuffle and the file write are not modelled further. -/
def generateFile (num_ops : Int) (percents : OpsPercent) : List String :=
  generatedBaseOps num_ops percents ++
    List.replicate (num_ops.toNat - (generatedBaseOps num_ops percents).length) "string"

/-- The equal-percentage workload `percents_b` of `main`: all seven
percentages are `14.29`. -/
def percentsEqual : OpsPercent :=
  ⟨⟨1429, 100, by decide, by decide⟩, ⟨1429, 100, by decide, by decide⟩,
   ⟨1429, 100, by decide, by decide⟩, ⟨1429, 100, by decide, by decide⟩,
   ⟨1429, 100, by decide, by decide⟩, ⟨1429, 100, by decide, by decide⟩,
   ⟨1429, 100, by decide, by decide⟩⟩

/-- Seven percentages of `100` each, used to refute the universal form of
the length claim. -/
def percentsAll100 : OpsPercent :=
  ⟨⟨100, 1, by decide, by decide⟩, ⟨100, 1, by decide, by decide⟩,
   ⟨100, 1, by decide, by decide⟩, ⟨100, 1, by decide, by decide⟩,
   ⟨100, 1, by decide, by decide⟩, ⟨100, 1, by decide, by decide⟩,
   ⟨100, 1, by decide, by decide⟩⟩

/-- A lock event: acquiring (shared or exclusive) or releasing the
reader-writer lock of field `i`. -/
inductive LockEv where
  | acq (i : Nat) (shared : Bool)
  | rel (i : Nat)
deriving DecidableEq

/-- Lock behaviour of `readField`: a `std::shared_lock` on
`field_mutexes[index]`, released at end of scope. -/
def readFieldLockTrace (index : Nat) : List LockEv :=
  [.acq index true, .rel index]

/-- Lock behaviour of `writeField`: a `std::unique_lock` on
`field_mutexes[index]`, released at end of scope. -/
def writeFieldLockTrace (index : Nat) : List LockEv :=
  [.acq index false, .rel index]

/-- Lock behaviour of `operator std::string()`: for `i = 0, 1, ...,
fields.size()-1` in increasing order, a `std::shared_lock` on
`field_mutexes[i]` scoped to the loop body, hence released before the next
acquisition. -/
def toStdStringLockTrace (n : Nat) : List LockEv :=
  ((List.range n).map fun i => [LockEv.acq i true, LockEv.rel i]).flatten

/-- Lock trace of one operation against an `N`-field store. -/
def opLockTrace (N : Nat) : Op → List LockEv
  | .read i => readFieldLockTrace i
  | .write i _ => writeFieldLockTrace i
  | .string => toStdStringLockTrace N

/-- Lock trace of a worker that executes a sequence of operations. -/
def opsLockTrace (N : Nat) (ops : List Op) : List LockEv :=
  (ops.map (opLockTrace N)).flatten

/-- Acquire/release pairs, the common shape of all lock traces above. -/
def pairTrace (ps : List (Nat × Bool)) : List LockEv :=
  (ps.map fun p => [LockEv.acq p.1 p.2, LockEv.rel p.1]).flatten

/-- The acquire/release pairs of one operation. -/
def opPairs (N : Nat) : Op → List (Nat × Bool)
  | .read i => [(i, true)]
  | .write i _ => [(i, false)]
  | .string => (List.range N).map fun i => (i, true)

/-- Effect of one lock event on the multiset (as a list) of held lock
indices. -/
def lockStep (h : List Nat) : LockEv → List Nat
  | .acq i _ => i :: h
  | .rel i => h.erase i

/-- Multiset (as a list) of lock indices held after executing a prefix of
lock events. -/
def heldAfter (evs : List LockEv) : List Nat :=
  evs.foldl lockStep []

/-- Locks held by a thread that has executed the first `pos` events of its
trace. -/
def holdsAt (tr : List LockEv) (pos : Nat) : List Nat :=
  heldAfter (tr.take pos)

/-- The lock a thread at position `pos` is about to acquire, if any. -/
def waitingOn (tr : List LockEv) (pos : Nat) : Option Nat :=
  match tr.get? pos with
  | some (.acq i _) => some i
  | _ => none

/-- A deadlocked set of threads: a nonempty subset of the configuration in
which every thread is about to acquire a lock that is (possibly
incompatibly) held by some member of the subset.  Any real circular wait
of the reader-writer locks gives such a set, since a blocking holder is in
particular a holder. -/
def Deadlocked (cfg : List (List LockEv × Nat)) : Prop :=
  ∃ S : List (List LockEv × Nat), S ≠ [] ∧ (∀ t ∈ S, t ∈ cfg) ∧
    ∀ t ∈ S, ∃ i, waitingOn t.1 t.2 = some i ∧ ∃ u ∈ S, i ∈ holdsAt u.1 u.2

/-- A trace never holds any lock at the moment it acquires one. -/
def AcquiresEmptyHanded (tr : List LockEv) : Prop :=
  ∀ pos i sh, tr.get? pos = some (.acq i sh) → holdsAt tr pos = []

/-- The field indices acquired along a trace, in acquisition order. -/
def acqIndices (tr : List LockEv) : List Nat :=
  tr.filterMap fun e => match e with
    | .acq i _ => some i
    | .rel _ => none

/-- Incrementing one in-range entry of a counter vector increments its sum. -/
lemma sum_set_getD_succ (l : List Nat) (i : Nat) (h : i < l.length) :
    (l.set i (l.getD i 0 + 1)).sum = l.sum + 1 := by
  induction l generalizing i with
  | nil => simp at h
  | cons a t ih =>
    cases i with
    | zero =>
      rw [List.getD_cons_zero, List.set_cons_zero, List.sum_cons, List.sum_cons]
      omega
    | succ n =>
      have hn : n < t.length := by simpa using h
      rw [List.getD_cons_succ, List.set_cons_succ, List.sum_cons, List.sum_cons, ih n hn]
      omega

lemma counterInv_ofSize (N : Nat) : CounterInv N (LabThreadSafeData.ofSize N) := by
  refine ⟨by simp [LabThreadSafeData.ofSize], by simp [LabThreadSafeData.ofSize], ?_⟩
  simp [countersSum, LabThreadSafeData.ofSize, List.sum_replicate]

/-- One valid operation increments exactly one kind-specific counter (so the
counter sum rises by one) and the global counter by one, and preserves the
counter-vector lengths. -/
lemma applyOp_step (N : Nat) (s : LabThreadSafeData) (op : Op)
    (hr : s.read_count.length = N) (hw : s.write_count.length = N)
    (hv : validOp N op = true) :
    countersSum (applyOp s op) = countersSum s + 1 ∧
    (applyOp s op).total_ops = s.total_ops + 1 ∧
    (applyOp s op).read_count.length = N ∧
    (applyOp s op).write_count.length = N := by
  cases op with
  | read i =>
    have hi : i < s.read_count.length := by
      rw [hr]; simpa [validOp] using hv
    have e1 : countersSum (applyOp s (.read i)) =
        (s.read_count.set i (s.read_count.getD i 0 + 1)).sum +
          s.write_count.sum + s.string_count := rfl
    have e2 : (applyOp s (.read i)).read_count.length =
        (s.read_count.set i (s.read_count.getD i 0 + 1)).length := rfl
    refine ⟨?_, rfl, ?_, hw⟩
    · rw [e1, sum_set_getD_succ _ _ hi]; unfold countersSum; omega
    · rw [e2, List.length_set]; exact hr
  | write i v =>
    have hi : i < s.write_count.length := by
      rw [hw]; simpa [validOp] using hv
    have e1 : countersSum (applyOp s (.write i v)) =
        s.read_count.sum +
          (s.write_count.set i (s.write_count.getD i 0 + 1)).sum + s.string_count := rfl
    have e2 : (applyOp s (.write i v)).write_count.length =
        (s.write_count.set i (s.write_count.getD i 0 + 1)).length := rfl
    refine ⟨?_, rfl, hr, ?_⟩
    · rw [e1, sum_set_getD_succ _ _ hi]; unfold countersSum; omega
    · rw [e2, List.length_set]; exact hw
  | string =>
    have e1 : countersSum (applyOp s .string) =
        s.read_count.sum + s.write_count.sum + (s.string_count + 1) := rfl
    refine ⟨?_, rfl, hr, hw⟩
    rw [e1]; unfold countersSum; omega

lemma counterInv_applyOp (N : Nat) (s : LabThreadSafeData) (op : Op)
    (h : CounterInv N s) (hv : validOp N op = true) :
    CounterInv N (applyOp s op) := by
  obtain ⟨hr, hw, hsum⟩ := h
  obtain ⟨h1, h2, h3, h4⟩ := applyOp_step N s op hr hw hv
  exact ⟨h3, h4, by rw [h1, h2, hsum]⟩

lemma counterInv_applyOps (N : Nat) (s : LabThreadSafeData) (ops : List Op)
    (h : CounterInv N s) (hv : ∀ op ∈ ops, validOp N op = true) :
    CounterInv N (applyOps s ops) := by
  induction ops generalizing s with
  | nil => exact h
  | cons op rest ih =>
    have hstep := counterInv_applyOp N s op h (hv op (List.mem_cons_self op rest))
    have := ih (applyOp s op) hstep (fun o ho => hv o (List.mem_cons_of_mem op ho))
    simpa [applyOps] using this

/-- Reading back the entry just written by `List.set` at an in-range index. -/
lemma getD_set_self (l : List Int) (i : Nat) (v : Int) (h : i < l.length) :
    (l.set i v).getD i 0 = v := by
  induction l generalizing i with
  | nil => simp at h
  | cons a t ih =>
    cases i with
    | zero => rw [List.set_cons_zero, List.getD_cons_zero]
    | succ n =>
      have hn : n < t.length := by simpa using h
      rw [List.set_cons_succ, List.getD_cons_succ]
      exact ih n hn

/-- `List.set` leaves every other position unchanged. -/
lemma getD_set_ne (l : List Int) (i j : Nat) (v : Int) (h : j ≠ i) :
    (l.set i v).getD j 0 = l.getD j 0 := by
  induction l generalizing i j with
  | nil => rfl
  | cons a t ih =>
    cases i with
    | zero =>
      cases j with
      | zero => exact absurd rfl h
      | succ m => rw [List.set_cons_zero, List.getD_cons_succ, List.getD_cons_succ]
    | succ n =>
      cases j with
      | zero => rw [List.set_cons_succ, List.getD_cons_zero, List.getD_cons_zero]
      | succ m =>
        rw [List.set_cons_succ, List.getD_cons_succ, List.getD_cons_succ]
        exact ih n m (fun e => h (by rw [e]))

/-- C1: after any valid operation sequence on a fresh `N`-field store, the
sum of all per-field read counters plus all per-field write counters plus
the string counter equals `total_ops`; moreover each single valid operation
increments the counter sum and the global counter by exactly one. -/
theorem spec_C1_counter_invariant (N : Nat) (ops : List Op)
    (hv : ∀ op ∈ ops, validOp N op = true) :
    countersSum (applyOps (LabThreadSafeData.ofSize N) ops) =
      (applyOps (LabThreadSafeData.ofSize N) ops).total_ops ∧
    ∀ s op, validOp N op = true → s.read_count.length = N → s.write_count.length = N →
      countersSum (applyOp s op) = countersSum s + 1 ∧
      (applyOp s op).total_ops = s.total_ops + 1 := by
  constructor
  · exact (counterInv_applyOps N _ ops (counterInv_ofSize N) hv).2.2
  · intro s op hop hr hw
    obtain ⟨h1, h2, _, _⟩ := applyOp_step N s op hr hw hop
    exact ⟨h1, h2⟩

/-- Witness for C1 at a concrete store and operation sequence. -/
theorem spec_C1_counter_invariant_witness :
    countersSum (applyOps (LabThreadSafeData.ofSize 2) [.read 0, .write 1 5, .string]) =
      (applyOps (LabThreadSafeData.ofSize 2) [.read 0, .write 1 5, .string]).total_ops :=
  (spec_C1_counter_invariant 2 [.read 0, .write 1 5, .string] (by decide)).1

/-- Entries of a replicated list are all the replicated value. -/
lemma getD_replicate {α : Type} (d : α) (n i : Nat) :
    (List.replicate n d).getD i d = d := by
  induction n generalizing i with
  | zero => rfl
  | succ m ih =>
    cases i with
    | zero => rw [List.replicate_succ, List.getD_cons_zero]
    | succ k => rw [List.replicate_succ, List.getD_cons_succ]; exact ih k

/-- No operation changes the number of fields. -/
lemma applyOp_fields_length (s : LabThreadSafeData) (op : Op) :
    (applyOp s op).fields.length = s.fields.length := by
  cases op with
  | read i => rfl
  | write i v => exact List.length_set s.fields i v
  | string => rfl

/-- An operation that does not write field `i` leaves field `i` unchanged. -/
lemma applyOp_getD_of_not_writesTo (s : LabThreadSafeData) (op : Op) (i : Nat)
    (h : writesTo i op = false) :
    (applyOp s op).fields.getD i 0 = s.fields.getD i 0 := by
  cases op with
  | read k => rfl
  | string => rfl
  | write j v =>
    have hji : j ≠ i := by simpa [writesTo] using h
    exact getD_set_ne s.fields j i v (fun e => hji e.symm)

/-- A sequence of operations none of which writes field `i` leaves field
`i` unchanged. -/
lemma applyOps_getD_of_not_writesTo (s : LabThreadSafeData) (ops : List Op) (i : Nat)
    (h : ∀ op ∈ ops, writesTo i op = false) :
    (applyOps s ops).fields.getD i 0 = s.fields.getD i 0 := by
  induction ops generalizing s with
  | nil => rfl
  | cons op rest ih =>
    have h1 := applyOp_getD_of_not_writesTo s op i (h op (List.mem_cons_self op rest))
    have h2 := ih (applyOp s op) (fun o ho => h o (List.mem_cons_of_mem op ho))
    calc (applyOps s (op :: rest)).fields.getD i 0
        = (applyOps (applyOp s op) rest).fields.getD i 0 := rfl
      _ = (applyOp s op).fields.getD i 0 := h2
      _ = s.fields.getD i 0 := h1

/-- C2: `readField i` after `writeField i v`, with no intervening write to
field `i` (intervening reads, writes to other fields and snapshots are
allowed), returns `v`. -/
theorem spec_C2_read_after_write (s : LabThreadSafeData) (i : Nat) (v : Int)
    (ops : List Op) (hi : i < s.fields.length)
    (hops : ∀ op ∈ ops, writesTo i op = false) :
    (readField (applyOps (writeField s i v) ops) i).1 = v := by
  have h0 : (writeField s i v).fields.getD i 0 = v := getD_set_self s.fields i v hi
  have h1 := applyOps_getD_of_not_writesTo (writeField s i v) ops i hops
  show (applyOps (writeField s i v) ops).fields.getD i 0 = v
  rw [h1, h0]

/-- Witness for C2: write 42 to field 0, snapshot and read other state,
then read field 0. -/
theorem spec_C2_read_after_write_witness :
    (readField (applyOps (writeField (LabThreadSafeData.ofSize 1) 0 42)
        [.string, .read 0]) 0).1 = 42 :=
  spec_C2_read_after_write (LabThreadSafeData.ofSize 1) 0 42 [.string, .read 0]
    (by decide) (by decide)

/-- C8: a store constructed with `N` fields has every field, every
per-field counter, the string counter and the global counter equal to 0. -/
theorem spec_C8_fresh_store (N : Nat) :
    (∀ i, (LabThreadSafeData.ofSize N).fields.getD i 0 = 0) ∧
    (∀ i, (LabThreadSafeData.ofSize N).read_count.getD i 0 = 0) ∧
    (∀ i, (LabThreadSafeData.ofSize N).write_count.getD i 0 = 0) ∧
    (LabThreadSafeData.ofSize N).string_count = 0 ∧
    (LabThreadSafeData.ofSize N).total_ops = 0 ∧
    (LabThreadSafeData.ofSize N).fields.length = N :=
  ⟨fun i => getD_replicate 0 N i, fun i => getD_replicate 0 N i,
   fun i => getD_replicate 0 N i, rfl, rfl, List.length_replicate N 0⟩

/-- C9: `writeField i v` sets field `i` to `v` and leaves every other
field unchanged; `readField` and the string conversion leave all fields
unchanged. -/
theorem spec_C9_frame_effects (s : LabThreadSafeData) (i : Nat) (v : Int)
    (hi : i < s.fields.length) :
    (writeField s i v).fields.getD i 0 = v ∧
    (∀ j, j ≠ i → (writeField s i v).fields.getD j 0 = s.fields.getD j 0) ∧
    (readField s i).2.fields = s.fields ∧
    (toStdString s).2.fields = s.fields :=
  ⟨getD_set_self s.fields i v hi,
   fun j hj => getD_set_ne s.fields i j v hj, rfl, rfl⟩

/-- Witness for C9 on a concrete two-field store. -/
theorem spec_C9_frame_effects_witness :
    (writeField (LabThreadSafeData.ofSize 2) 0 7).fields.getD 0 0 = 7 ∧
    (writeField (LabThreadSafeData.ofSize 2) 0 7).fields.getD 1 0 =
      (LabThreadSafeData.ofSize 2).fields.getD 1 0 :=
  ⟨(spec_C9_frame_effects (LabThreadSafeData.ofSize 2) 0 7 (by decide)).1,
   (spec_C9_frame_effects (LabThreadSafeData.ofSize 2) 0 7 (by decide)).2.1 1 (by decide)⟩

/-- C10: on a store with no fields the string conversion returns the empty
string and still increments the string counter and the global counter. -/
theorem spec_C10_empty_store_snapshot (s : LabThreadSafeData) (h : s.fields = []) :
    (toStdString s).1 = "" ∧
    (toStdString s).2.string_count = s.string_count + 1 ∧
    (toStdString s).2.total_ops = s.total_ops + 1 := by
  refine ⟨?_, rfl, rfl⟩
  show snapshotStr s.fields = ""
  rw [h]; rfl

/-- Witness for C10 at a store constructed with 0 fields. -/
theorem spec_C10_empty_store_snapshot_witness :
    (toStdString (LabThreadSafeData.ofSize 0)).1 = "" ∧
    (toStdString (LabThreadSafeData.ofSize 0)).2.string_count =
      (LabThreadSafeData.ofSize 0).string_count + 1 ∧
    (toStdString (LabThreadSafeData.ofSize 0)).2.total_ops =
      (LabThreadSafeData.ofSize 0).total_ops + 1 :=
  spec_C10_empty_store_snapshot (LabThreadSafeData.ofSize 0) rfl

/-- A list of naturals with zero sum has every entry (and default) zero. -/
lemma getD_eq_zero_of_sum_eq_zero (l : List Nat) (h : l.sum = 0) (i : Nat) :
    l.getD i 0 = 0 := by
  induction l generalizing i with
  | nil => rfl
  | cons a t ih =>
    rw [List.sum_cons] at h
    cases i with
    | zero => rw [List.getD_cons_zero]; omega
    | succ k => rw [List.getD_cons_succ]; exact ih (by omega) k

/-- C7: on a store on which no operations have run (global counter 0), the
statistics use divisor 1 (no division by zero) and report 0 percent for
every per-field read and write percentage and for the string percentage. -/
theorem spec_C7_stats_no_division_by_zero (N : Nat) (ops : List Op)
    (hv : ∀ op ∈ ops, validOp N op = true)
    (h0 : (applyOps (LabThreadSafeData.ofSize N) ops).total_ops = 0) :
    statsDivisor (applyOps (LabThreadSafeData.ofSize N) ops) = 1 ∧
    (∀ p ∈ (printStats (applyOps (LabThreadSafeData.ofSize N) ops)).1,
      p.1 = 0 ∧ p.2 = 0) ∧
    (printStats (applyOps (LabThreadSafeData.ofSize N) ops)).2 = 0 := by
  set s : LabThreadSafeData := applyOps (LabThreadSafeData.ofSize N) ops with hs
  obtain ⟨hr, hw, hsum⟩ := counterInv_applyOps N _ ops (counterInv_ofSize N) hv
  rw [← hs, h0] at hsum
  unfold countersSum at hsum
  have hr0 : s.read_count.sum = 0 := by omega
  have hw0 : s.write_count.sum = 0 := by omega
  have hs0 : s.string_count = 0 := by omega
  have hdiv : statsDivisor s = 1 := by unfold statsDivisor; rw [h0]; rfl
  refine ⟨hdiv, ?_, ?_⟩
  · intro p hp
    obtain ⟨i, hi, hpi⟩ := List.mem_map.1 hp
    rw [← hpi]
    constructor
    · show 100 * (s.read_count.getD i 0 : ℚ) / (statsDivisor s : ℚ) = 0
      rw [getD_eq_zero_of_sum_eq_zero _ hr0 i]
      simp
    · show 100 * (s.write_count.getD i 0 : ℚ) / (statsDivisor s : ℚ) = 0
      rw [getD_eq_zero_of_sum_eq_zero _ hw0 i]
      simp
  · show 100 * (s.string_count : ℚ) / (statsDivisor s : ℚ) = 0
    rw [hs0]
    simp

/-- Witness for C7: a fresh 3-field store with no operations run. -/
theorem spec_C7_stats_witness :
    statsDivisor (applyOps (LabThreadSafeData.ofSize 3) []) = 1 ∧
    (printStats (applyOps (LabThreadSafeData.ofSize 3) [])).2 = 0 :=
  ⟨(spec_C7_stats_no_division_by_zero 3 [] (by decide) rfl).1,
   (spec_C7_stats_no_division_by_zero 3 [] (by decide) rfl).2.2⟩

/-- A line whose extracted command token is none of the three recognized
commands falls through every branch of `execLine`. -/
lemma execLine_unrecognized (junk : Int) (line : String) (s : LabThreadSafeData)
    (h1 : (extractString (issOf line)).1 ≠ "write")
    (h2 : (extractString (issOf line)).1 ≠ "read")
    (h3 : (extractString (issOf line)).1 ≠ "string") :
    execLine junk line s = s := by
  unfold execLine
  rw [if_neg h1, if_neg h2, if_neg h3]

/-- A whole file of unrecognized lines leaves the store untouched. -/
lemma executeFile_unrecognized (junk : Int) (lines : List String) :
    ∀ s : LabThreadSafeData,
      (∀ l ∈ lines,
        (extractString (issOf l)).1 ∉ (["write", "read", "string"] : List String)) →
      executeFile junk lines s = s := by
  induction lines with
  | nil => intro s _; rfl
  | cons l ls ih =>
    intro s h
    have hl := h l (List.mem_cons_self l ls)
    simp only [List.mem_cons, List.not_mem_nil, or_false, not_or] at hl
    obtain ⟨h1, h2, h3⟩ := hl
    have e : executeFile junk (l :: ls) s = executeFile junk ls (execLine junk l s) := rfl
    rw [e, execLine_unrecognized junk l s h1 h2 h3]
    exact ih s (fun x hx => h x (List.mem_cons_of_mem l hx))

/-- C4 (amended): a line whose leading token is not `write`, `read` or
`string` is skipped with no side effect at all, and a whole file of such
lines leaves the store unchanged; but a line with a recognized leading
token and malformed or missing numeric arguments is NOT skipped: the
extraction results are never checked, so the operation still executes.
When a numeric extraction reaches `num_get` and fails, `0` is stored
(C++11): the line `write 0 x` executes `writeField(0, 0)`.  When the
extraction fails already at the sentry because the previous extraction
exhausted the stream, nothing is stored and the uninitialized local keeps
an indeterminate value (the `junk2` parameter): the line `write 0`
(missing value) executes `writeField(0, junk2)` — either way field 0 is
written and the counters increment. -/
theorem spec_C4_unrecognized_skipped (junk : Int) (line : String) (s : LabThreadSafeData)
    (h : (extractString (issOf line)).1 ∉ (["write", "read", "string"] : List String)) :
    execLine junk line s = s ∧
    (∀ lines : List String,
      (∀ l ∈ lines,
        (extractString (issOf l)).1 ∉ (["write", "read", "string"] : List String)) →
      executeFile junk lines s = s) ∧
    (∀ junk2 : Int, ∀ s2 : LabThreadSafeData,
      execLine junk2 "write 0 x" s2 = writeField s2 0 0) ∧
    (∀ junk2 : Int, ∀ s2 : LabThreadSafeData,
      execLine junk2 "write 0" s2 = writeField s2 0 junk2) := by
  simp only [List.mem_cons, List.not_mem_nil, or_false, not_or] at h
  obtain ⟨h1, h2, h3⟩ := h
  refine ⟨execLine_unrecognized junk line s h1 h2 h3, ?_, ?_, ?_⟩
  · intro lines hall
    exact executeFile_unrecognized junk lines s hall
  · intro junk2 s2
    rfl
  · intro junk2 s2
    rfl

/-- Witness for C4 on a concrete unrecognized line. -/
theorem spec_C4_unrecognized_skipped_witness :
    execLine 0 "skip 1 2" (LabThreadSafeData.ofSize 1) = LabThreadSafeData.ofSize 1 :=
  (spec_C4_unrecognized_skipped 0 "skip 1 2" (LabThreadSafeData.ofSize 1) (by decide)).1

/-- Counterexample to C4 as stated: the malformed line `write 0 x` (value
is not numeric) is not silently skipped; the failed `num_get` stores 0 and
`executeFile` executes `writeField(0, 0)` on it, incrementing
`write_count[0]` and `total_ops`, so the store is not left unchanged. -/
theorem spec_C4_malformed_not_skipped_cex :
    executeFile 0 ["write 0 x"] (LabThreadSafeData.ofSize 1) ≠ LabThreadSafeData.ofSize 1 := by
  decide

/-- The length of the base `ops` vector is the sum of the seven truncated
per-kind counts (clamped at zero, as the push-back loops are). -/
lemma generatedBaseOps_length (num_ops : Int) (percents : OpsPercent) :
    (generatedBaseOps num_ops percents).length =
      ((pctCounts num_ops percents).map Int.toNat).sum := by
  simp [generatedBaseOps, pctCounts]

/-- C5 (amended): whenever the seven truncated per-kind counts sum to at
most `num_ops` (as they do for percentages summing to at most 100), the
generated operation sequence has length exactly `num_ops`: the `while`
loop pads the truncation shortfall with `string` entries. -/
theorem spec_C5_generated_length (num_ops : Int) (percents : OpsPercent)
    (h : ((pctCounts num_ops percents).map Int.toNat).sum ≤ num_ops.toNat) :
    (generateFile num_ops percents).length = num_ops.toNat := by
  have hb := generatedBaseOps_length num_ops percents
  unfold generateFile
  rw [List.length_append, List.length_replicate, hb]
  omega

/-- Witness for C5, and the scenario of the claim: `numOps = 100` with all
seven percentages equal to `14.29` yields exactly 100 operations (7 × 14
from truncation, plus 2 padding `string` entries). -/
theorem spec_C5_generated_length_witness :
    (generateFile 100 percentsEqual).length = 100 :=
  spec_C5_generated_length 100 percentsEqual (by decide)

set_option maxRecDepth 8000 in
/-- Counterexample to C5 as stated for every set of percentages: with all
seven percentages equal to 100, `generateFile` produces 700 operations,
not `num_ops = 100`; nothing truncates an overshoot. -/
theorem spec_C5_length_cex :
    (generateFile 100 percentsAll100).length ≠ 100 := by decide

/-- Folding string concatenation from any accumulator. -/
lemma string_foldl_append (l : List String) (a : String) :
    l.foldl (fun r s => r ++ s) a = a ++ l.foldl (fun r s => r ++ s) "" := by
  induction l generalizing a with
  | nil => simp only [List.foldl_nil]; rw [String.append_empty]
  | cons x xs ih =>
    simp only [List.foldl_cons]
    rw [ih (a ++ x), ih ("" ++ x), String.empty_append, String.append_assoc]

/-- `String.join` distributes over cons. -/
lemma string_join_cons (a : String) (l : List String) :
    String.join (a :: l) = a ++ String.join l := by
  show (a :: l).foldl (fun r s => r ++ s) "" = a ++ String.join l
  rw [List.foldl_cons, string_foldl_append l ("" ++ a), String.empty_append]
  rfl

/-- Unfolding the rendering loop once on a store with at least two fields:
the head field is printed followed by `", "`, and the remaining loop
iterations render the tail. -/
lemma snapshotStr_cons_cons (x y : Int) (t : List Int) :
    snapshotStr (x :: y :: t) = (toString x ++ ", ") ++ snapshotStr (y :: t) := by
  unfold snapshotStr
  simp only [List.length_cons, Nat.add_sub_cancel]
  rw [List.range_succ_eq_map, List.map_cons, List.map_map, string_join_cons]
  have hfun : ((fun i => toString ((x :: y :: t).getD i 0) ++
        if i ≠ t.length + 1 then ", " else "") ∘ Nat.succ) =
      (fun i => toString ((y :: t).getD i 0) ++ if i ≠ t.length then ", " else "") := by
    funext i
    simp only [Function.comp_apply, List.getD_cons_succ]
    exact congrArg _ (if_congr (by omega) rfl rfl)
  rw [hfun]
  rw [List.getD_cons_zero, if_pos (by omega : (0 : Nat) ≠ t.length + 1)]

/-- The rendering loop of `operator std::string()` produces exactly the
comma-separated list of the field values in index order. -/
lemma snapshotStr_eq_commaSeparatedList (fs : List Int) :
    snapshotStr fs = commaSeparatedList fs := by
  induction fs with
  | nil => rfl
  | cons x xs ih =>
    cases xs with
    | nil =>
      show snapshotStr [x] = toString x
      unfold snapshotStr
      rw [show List.range ([x].length) = [0] from rfl, List.map_cons, List.map_nil,
        string_join_cons]
      simp only [List.length_cons, List.length_nil, Nat.zero_add]
      rw [List.getD_cons_zero, if_neg (by decide : ¬ (0 : Nat) ≠ 1 - 1)]
      rw [show String.join [] = "" from rfl, String.append_empty, String.append_empty]
    | cons y t =>
      rw [snapshotStr_cons_cons, ih]
      rfl

/-- C3: writing 1, 2, 3 into the three fields of a fresh 3-field store and
converting to string yields exactly `1, 2, 3`, and in general the string
conversion renders all field values in index order as a comma-separated
list. -/
theorem spec_C3_snapshot_renders :
    (toStdString (writeField (writeField (writeField
        (LabThreadSafeData.ofSize 3) 0 1) 1 2) 2 3)).1 = "1, 2, 3" ∧
    ∀ fs : List Int, snapshotStr fs = commaSeparatedList fs :=
  ⟨by decide, snapshotStr_eq_commaSeparatedList⟩

/-- A trace made of adjacent acquire/release pairs never holds a lock at
the moment it acquires one: every acquisition happens at an even position,
right after the previous pair was fully released. -/
lemma pairTrace_emptyHanded (ps : List (Nat × Bool)) :
    AcquiresEmptyHanded (pairTrace ps) := by
  induction ps with
  | nil =>
    intro pos i sh h
    simp [pairTrace] at h
  | cons p ps ih =>
    intro pos i sh h
    cases pos with
    | zero => rfl
    | succ pos1 =>
      cases pos1 with
      | zero =>
        rw [show (pairTrace (p :: ps)).get? 1 = some (LockEv.rel p.1) from rfl] at h
        simp at h
      | succ pos2 =>
        rw [show (pairTrace (p :: ps)).get? (pos2 + 2) = (pairTrace ps).get? pos2
          from rfl] at h
        have hhold := ih pos2 i sh h
        have herase : ([p.1] : List Nat).erase p.1 = [] := List.erase_cons_head p.1 []
        calc holdsAt (pairTrace (p :: ps)) (pos2 + 2)
            = List.foldl lockStep (([p.1] : List Nat).erase p.1)
                (List.take pos2 (pairTrace ps)) := rfl
          _ = List.foldl lockStep [] (List.take pos2 (pairTrace ps)) := by rw [herase]
          _ = [] := hhold

/-- Inversion of `waitingOn`: a waiting thread is at an acquire event. -/
lemma waitingOn_acq (tr : List LockEv) (pos : Nat) (i : Nat)
    (h : waitingOn tr pos = some i) : ∃ sh, tr.get? pos = some (.acq i sh) := by
  unfold waitingOn at h
  cases e : tr.get? pos with
  | none => rw [e] at h; exact absurd h (by simp)
  | some ev =>
    cases ev with
    | acq a sh =>
      rw [e] at h
      simp at h
      subst h
      exact ⟨sh, rfl⟩
    | rel a => rw [e] at h; simp at h

/-- A thread with an empty-handed trace holds nothing while waiting. -/
lemma holdsAt_empty_of_waiting (tr : List LockEv) (pos : Nat) (i : Nat)
    (hE : AcquiresEmptyHanded tr) (h : waitingOn tr pos = some i) :
    holdsAt tr pos = [] := by
  obtain ⟨sh, hg⟩ := waitingOn_acq tr pos i h
  exact hE pos i sh hg

/-- If every thread of the configuration acquires empty-handed, no subset
can be deadlocked: a member of a deadlocked set would have to hold the
lock some other member waits for, while itself waiting and hence holding
nothing. -/
lemma no_deadlock_of_emptyHanded (cfg : List (List LockEv × Nat))
    (hall : ∀ t ∈ cfg, AcquiresEmptyHanded t.1) : ¬ Deadlocked cfg := by
  rintro ⟨S, hne, hsub, hwait⟩
  obtain ⟨t, ht⟩ : ∃ t, t ∈ S := by
    cases S with
    | nil => exact absurd rfl hne
    | cons a l => exact ⟨a, List.mem_cons_self a l⟩
  obtain ⟨i, hwt, u, hu, hheld⟩ := hwait t ht
  obtain ⟨j, hwu, _⟩ := hwait u hu
  have hempty : holdsAt u.1 u.2 = [] :=
    holdsAt_empty_of_waiting u.1 u.2 j (hall u (hsub u hu)) hwu
  rw [hempty] at hheld
  exact absurd hheld (List.not_mem_nil i)

/-- Each operation lock trace is a sequence of acquire/release pairs. -/
lemma opLockTrace_eq_pairTrace (N : Nat) (op : Op) :
    opLockTrace N op = pairTrace (opPairs N op) := by
  cases op with
  | read i => rfl
  | write i v => rfl
  | string =>
    show toStdStringLockTrace N = pairTrace ((List.range N).map fun i => (i, true))
    unfold toStdStringLockTrace pairTrace
    rw [List.map_map]
    rfl

lemma pairTrace_append (ps qs : List (Nat × Bool)) :
    pairTrace (ps ++ qs) = pairTrace ps ++ pairTrace qs := by
  unfold pairTrace
  rw [List.map_append, List.flatten_append]

/-- A whole worker trace is a sequence of acquire/release pairs. -/
lemma opsLockTrace_eq_pairTrace (N : Nat) (ops : List Op) :
    opsLockTrace N ops = pairTrace ((ops.map (opPairs N)).flatten) := by
  induction ops with
  | nil => rfl
  | cons op rest ih =>
    show opLockTrace N op ++ opsLockTrace N rest = _
    rw [show (((op :: rest).map (opPairs N)).flatten) =
      opPairs N op ++ ((rest.map (opPairs N)).flatten) from rfl]
    rw [pairTrace_append, opLockTrace_eq_pairTrace, ih]

lemma acqIndices_pairTrace (ps : List (Nat × Bool)) :
    acqIndices (pairTrace ps) = ps.map Prod.fst := by
  induction ps with
  | nil => rfl
  | cons p t ih =>
    show acqIndices (LockEv.acq p.1 p.2 :: LockEv.rel p.1 :: pairTrace t)
      = p.1 :: t.map Prod.fst
    rw [show acqIndices (LockEv.acq p.1 p.2 :: LockEv.rel p.1 :: pairTrace t)
      = p.1 :: acqIndices (pairTrace t) from rfl]
    rw [ih]

/-- The string conversion acquires the field locks exactly in the order
`0, 1, ..., N-1`. -/
lemma acqIndices_toStdString (N : Nat) :
    acqIndices (toStdStringLockTrace N) = List.range N := by
  have h1 : toStdStringLockTrace N = pairTrace ((List.range N).map fun i => (i, true)) :=
    opLockTrace_eq_pairTrace N .string
  rw [h1, acqIndices_pairTrace, List.map_map]
  have h2 : (Prod.fst ∘ fun i : Nat => (i, true)) = id := rfl
  rw [h2, List.map_id]

/-- C6: a configuration of any number of workers, each at any point of a
replay of any operation sequence against an `N`-field store, is never
deadlocked (every thread releases each per-field lock before acquiring the
next one, so a waiting thread holds nothing and no circular wait can
close); and the string conversion acquires the per-field shared locks in
strictly increasing index order. -/
theorem spec_C6_no_deadlock (N : Nat) (workers : List (List Op × Nat)) :
    ¬ Deadlocked (workers.map fun w => (opsLockTrace N w.1, w.2)) ∧
    acqIndices (toStdStringLockTrace N) = List.range N ∧
    List.Pairwise (· < ·) (acqIndices (toStdStringLockTrace N)) := by
  refine ⟨?_, acqIndices_toStdString N, ?_⟩
  · apply no_deadlock_of_emptyHanded
    intro t ht
    obtain ⟨w, hw, hwt⟩ := List.mem_map.1 ht
    rw [← hwt]
    show AcquiresEmptyHanded (opsLockTrace N w.1)
    rw [opsLockTrace_eq_pairTrace]
    exact pairTrace_emptyHanded _
  · rw [acqIndices_toStdString N]
    exact List.pairwise_lt_range N
